import Mathlib

/-!
Verification of the MAVConnSerial transport from mavros (libmavconn),
src/libmavconn/src/serial.cpp.

The transport owns a serial device, a bounded transmit queue of
`MsgBuffer`s guarded by one mutex, a "write in progress" flag, and a
single reactor (io_service) thread on which all read/write completion
handlers run serialized.  We embed the code as an explicit state machine:

* `St` holds the fields of the C++ object (`isOpen` for
  `serial_dev.is_open()`, `tx_in_progress`, `tx_q`, the cumulative
  `txBytes` statistic, the receive scratch buffer `rx_buf`) together with
  the single outstanding asynchronous write (`inflight`, the byte span
  handed to `async_write_some`) and the outstanding asynchronous read
  (`readPending`).  History fields (`wire`, `parsed`, `received`,
  `enqueued`, `closedCbCount`) record the observable interactions and
  never influence behaviour.

* Each member function of the class becomes a Lean function on `St`
  (`send_bytes`, `send_message`, `close`, `do_write`, and the two
  completion handlers `write_completion_ok` / `read_completion_ok`).

* `step` dispatches events (producer calls, the posted `do_write(true)`
  trigger, and I/O completions); `runTrace` folds a trace.  Because all
  completions are serialized on the one reactor thread and producers only
  touch the queue under the mutex, every concurrent execution of the C++
  object linearizes into such a trace.
-/

namespace mavconn

/-- Modelled from the spec: the Transmit Queue bound ("max queue depth",
`MAX_TXQ_SIZE`).  The constant is declared in the interface header, which
is not under src/; mavros fixes it at 1000. -/
def MAX_TXQ_SIZE : Nat := 1000

/-- Modelled from the spec: the fixed size of the Receive Scratch Buffer
(`rx_buf`), declared in the serial header, which is not under src/.  The
exact value is not semantically load-bearing; only fixedness is. -/
def RX_BUF_SIZE : Nat := 1024

/-- Modelled from the spec: an Outbound Buffer (`MsgBuffer`, declared in
msgbuffer.h, not under src/): an immutable byte payload copied in at
enqueue time plus a mutable "bytes already sent" offset `pos`.  Bytes are
modelled as `Nat` (no arithmetic is ever performed on byte values, they
are only copied). -/
structure MsgBuffer where
  data : List Nat
  pos : Nat
deriving Repr, DecidableEq

/-- Total length of the buffer (`MsgBuffer::len`). -/
def MsgBuffer.len (b : MsgBuffer) : Nat := b.data.length

/-- Remaining byte count (`MsgBuffer::nbytes() = len - pos`). -/
def MsgBuffer.nbytes (b : MsgBuffer) : Nat := b.len - b.pos

/-- The span handed to `async_write_some`: `buffer(b.dpos(), b.nbytes())`,
i.e. the payload from the current offset to the end. -/
def MsgBuffer.rest (b : MsgBuffer) : List Nat := b.data.drop b.pos

/-- The state of one `MAVConnSerial` object, plus the outstanding
asynchronous operations and observation/history fields. -/
structure St where
  /-- `serial_dev.is_open()`. -/
  isOpen : Bool
  /-- the `tx_in_progress` flag. -/
  tx_in_progress : Bool
  /-- the transmit queue `tx_q`. -/
  tx_q : List MsgBuffer
  /-- cumulative transmitted-bytes statistic (`iostat_tx_add`). -/
  txBytes : Nat
  /-- the byte span of the outstanding `async_write_some`, if any. -/
  inflight : Option (List Nat)
  /-- whether an `async_read_some` is outstanding. -/
  readPending : Bool
  /-- the Receive Scratch Buffer contents. -/
  rx_buf : List Nat
  /-- whether a `port_closed_cb` callback is registered. -/
  hasClosedCb : Bool
  /-- history: number of invocations of the on-closed callback. -/
  closedCbCount : Nat
  /-- history: all bytes accepted by the device, in order. -/
  wire : List Nat
  /-- history: all bytes handed to `parse_buffer`, in order. -/
  parsed : List Nat
  /-- history: all bytes received from the device, in order. -/
  received : List Nat
  /-- history: payloads of all successful enqueues, in enqueue order. -/
  enqueued : List (List Nat)
deriving Repr, DecidableEq

/-- The error surfaced synchronously to a send caller: the
`std::length_error` thrown on TX queue overflow. -/
inductive SendErr where
  | queueOverflow
deriving Repr, DecidableEq

/-- `MAVConnSerial::send_bytes` (serial.cpp:95-111): if not open, log and
return (silent drop, no error); under the lock, if
`tx_q.size() >= MAX_TXQ_SIZE` throw `length_error` leaving the queue
untouched; otherwise `emplace_back` a buffer with offset 0.  The
`io_service.post(do_write, true)` that follows is a separate reactor
event (`Ev.doWriteNew`). -/
def send_bytes (bytes : List Nat) (s : St) : St × Option SendErr :=
  if !s.isOpen then (s, none)
  else if MAX_TXQ_SIZE ≤ s.tx_q.length then (s, some .queueOverflow)
  else ({ s with tx_q := s.tx_q ++ [⟨bytes, 0⟩],
                 enqueued := s.enqueued ++ [bytes] }, none)

/-- `MAVConnSerial::send_message` (serial.cpp:113-153, both overloads):
identical liveness/overflow/enqueue structure to `send_bytes`; the
external codec collaborator serializes the message to bytes inside the
`MsgBuffer` constructor, so the encoded byte sequence is a parameter
here. -/
def send_message (encoded : List Nat) (s : St) : St × Option SendErr :=
  if !s.isOpen then (s, none)
  else if MAX_TXQ_SIZE ≤ s.tx_q.length then (s, some .queueOverflow)
  else ({ s with tx_q := s.tx_q ++ [⟨encoded, 0⟩],
                 enqueued := s.enqueued ++ [encoded] }, none)

/-- `MAVConnSerial::close` (serial.cpp:76-93): under the mutex, if not
open return immediately; otherwise stop the io_service, close the device,
clear the TX queue, join the io thread, and invoke `port_closed_cb` if
registered.  Per the spec (§6) the device handle provider's `close()`
reports no failure, so this path surfaces no error. -/
def close (s : St) : St :=
  if !s.isOpen then s
  else { s with isOpen := false, tx_q := [],
                closedCbCount :=
                  s.closedCbCount + (if s.hasClosedCb then 1 else 0) }

/-- `MAVConnSerial::do_write` (serial.cpp:171-183): if the trigger is the
"new enqueue" kind (`check_tx_state`) and a write is already in progress,
return; under the lock, if the queue is empty return; otherwise mark the
write in progress and issue `async_write_some` on the front buffer's span
from its current offset. -/
def do_write (check_tx_state : Bool) (s : St) : St :=
  if check_tx_state && s.tx_in_progress then s
  else
    match s.tx_q with
    | [] => s
    | b :: _ => { s with tx_in_progress := true, inflight := some b.rest }

/-- The success branch of the `async_write_some` completion handler
(serial.cpp:184-210): add `bytes_transferred` to the TX statistic; under
the lock, if the queue is empty (close cleared it while the write was in
flight) just reset `tx_in_progress` and return; otherwise advance the
front buffer's offset, pop it if fully flushed, and either continue the
chain via `do_write(false)` or mark idle.  `sp` is the span that was
handed to the device at issuance; the device accepted its first `n`
bytes, which therefore appear on the wire. -/
def write_completion_ok (sp : List Nat) (n : Nat) (s : St) : St :=
  let s1 : St := { s with txBytes := s.txBytes + n,
                          wire := s.wire ++ sp.take n,
                          inflight := none }
  match s.tx_q with
  | [] => { s1 with tx_in_progress := false }
  | b :: tl =>
    let b1 : MsgBuffer := ⟨b.data, b.pos + n⟩
    let q1 : List MsgBuffer := if b1.nbytes = 0 then tl else b1 :: tl
    match q1 with
    | [] => { s1 with tx_q := [], tx_in_progress := false }
    | _ :: _ => do_write false { s1 with tx_q := q1 }

/-- The error branch of the `async_write_some` completion handler
(serial.cpp:187-191): log the error and `close()`.  The failed operation
is no longer outstanding; `tx_in_progress` is not touched. -/
def write_completion_err (s : St) : St :=
  close { s with inflight := none }

/-- The success branch of the `async_read_some` completion handler
(serial.cpp:159-168): the device filled the first `bytes.length` bytes of
the scratch buffer; `parse_buffer(PFX, rx_buf, sizeof(rx_buf),
bytes_transferred)` hands exactly that filled span to the parser, and
`do_read()` immediately reissues the read. -/
def read_completion_ok (bytes : List Nat) (s : St) : St :=
  let rb : List Nat := bytes ++ s.rx_buf.drop bytes.length
  { s with rx_buf := rb,
           parsed := s.parsed ++ rb.take bytes.length,
           received := s.received ++ bytes,
           readPending := true }

/-- The error branch of the `async_read_some` completion handler
(serial.cpp:160-164): log the error and `close()`; the handler returns
without reissuing `do_read`, so the read chain stops. -/
def read_completion_err (s : St) : St :=
  close { s with readPending := false }

/-- Events of the transport: producer calls (which may run on any thread
but are serialized by the mutex), the posted `do_write(true)` trigger
executing on the reactor, and the I/O completions executing on the
reactor. -/
inductive Ev where
  | sendBytes (payload : List Nat)
  | sendMsg (encoded : List Nat)
  | closeCall
  | doWriteNew
  | writeOk (n : Nat)
  | writeErr
  | readOk (bytes : List Nat)
  | readErr
deriving Repr, DecidableEq

/-- Whether an event can occur in a state: completions require the
corresponding operation to be outstanding; a successful write transfers
at most the span it was issued with; a successful read requires an open
device and fits the scratch buffer. -/
def enabled (s : St) : Ev → Bool
  | .sendBytes _ => true
  | .sendMsg _ => true
  | .closeCall => true
  | .doWriteNew => true
  | .writeOk n =>
    match s.inflight with
    | some sp => decide (n ≤ sp.length)
    | none => false
  | .writeErr => s.inflight.isSome
  | .readOk bytes =>
    s.readPending && s.isOpen && decide (bytes.length ≤ RX_BUF_SIZE)
  | .readErr => s.readPending

/-- One step of the transport. -/
def step (s : St) : Ev → St
  | .sendBytes payload => (send_bytes payload s).1
  | .sendMsg encoded => (send_message encoded s).1
  | .closeCall => close s
  | .doWriteNew => do_write true s
  | .writeOk n =>
    match s.inflight with
    | some sp => write_completion_ok sp n s
    | none => s
  | .writeErr => write_completion_err s
  | .readOk bytes => read_completion_ok bytes s
  | .readErr => read_completion_err s

/-- Fold a trace of events. -/
def runTrace (s : St) : List Ev → St
  | [] => s
  | e :: t => runTrace (step s e) t

/-- A trace is legal from `s` when every event is enabled where it
occurs. -/
def legalFrom (s : St) : List Ev → Bool
  | [] => true
  | e :: t => enabled s e && legalFrom (step s e) t

/-- The state right after a successful construction (serial.cpp:36-69):
device open, no write in progress, empty queue, zero statistics, one
`do_read` posted before the io thread starts. -/
def init (hasCb : Bool) : St :=
  { isOpen := true, tx_in_progress := false, tx_q := [], txBytes := 0,
    inflight := none, readPending := true,
    rx_buf := List.replicate RX_BUF_SIZE 0,
    hasClosedCb := hasCb, closedCbCount := 0,
    wire := [], parsed := [], received := [], enqueued := [] }

/-- Bytes of the queue not yet accepted by the device, in queue order. -/
def queueRest (s : St) : List Nat :=
  (s.tx_q.map MsgBuffer.rest).flatten

/-- Sum of the transfer counts of the successful write completions of a
trace. -/
def sumTransfers : List Ev → Nat
  | [] => 0
  | .writeOk n :: t => n + sumTransfers t
  | _ :: t => sumTransfers t

/-- An event that neither requests a close nor reports an I/O error. -/
def Ev.benign : Ev → Bool
  | .closeCall => false
  | .writeErr => false
  | .readErr => false
  | _ => true

/-- Modelled from the spec: the caller-visible outcome of
`MAVConnSerial::close`.  The close sequence (stop the reactor, close the
device, clear the queue, join the io thread, fire the callback) contains
no throw statement of its own, and per §4.6/§6 the device handle
provider's `close()` and the thread join report no failure to escalate;
so the call returns the new state and never an error value. -/
def close_result (s : St) : St × Option SendErr := (close s, none)

/-! ### Concrete states and traces used by the witnesses -/

/-- Concrete trace for the C1 witness: two enqueues (one raw, one encoded
message), drained by partial writes of 2, 1 and 2 bytes. -/
def fifoTrace : List Ev :=
  [.sendBytes [1, 2, 3], .sendMsg [4, 5], .doWriteNew,
   .writeOk 2, .writeOk 1, .writeOk 2]

/-- Concrete trace for the C2 witness: one 3-byte buffer, partially
flushed by a 2-byte completion, leaving offset 2 and an inflight
continuation span of 1 byte. -/
def drainTrace : List Ev :=
  [.sendBytes [7, 8, 9], .doWriteNew, .writeOk 2]

/-- A state whose transmit queue is exactly full, for the C3 witness. -/
def fullSt : St :=
  { init true with tx_q := List.replicate MAX_TXQ_SIZE ⟨[0], 0⟩ }

/-- A closed, drained state for the C4 witness. -/
def closedSt : St := close (init true)

/-- A state with the in-progress flag set, for the C8 witness. -/
def busySt : St := { init true with tx_in_progress := true }

/-- A legal trace reaching a state with an outstanding write, for the C8
witness. -/
def busyTrace : List Ev := [.sendBytes [5], .doWriteNew]

/-- A trace with two successful reads, for the C9 witness. -/
def readTrace : List Ev := [.readOk [3, 4], .readOk [5]]

/-- A trace in which close clears the queue while a 2-byte write is in
flight, for the C10 witness. -/
def lateTrace : List Ev := [.sendBytes [9, 9], .doWriteNew, .closeCall]

/-! ### Invariants maintained by every legal trace -/

/-- State invariants of the transport: every queued buffer's offset is
within bounds; an outstanding write's span is the front buffer's
remaining span; an outstanding write implies the in-progress flag; an
outstanding write over an empty queue only happens after close; a closed
transport has an empty queue; the on-closed callback has not fired while
open, and fires at most once ever; the handed-to-parser byte stream
equals the received byte stream; the scratch buffer keeps its fixed
size. -/
structure Inv (s : St) : Prop where
  posLe : ∀ b ∈ s.tx_q, b.pos ≤ b.data.length
  flightFront : ∀ sp b tl, s.inflight = some sp → s.tx_q = b :: tl → sp = b.rest
  flightProg : s.inflight.isSome = true → s.tx_in_progress = true
  emptyClosed : s.inflight.isSome = true → s.tx_q = [] → s.isOpen = false
  closedEmpty : s.isOpen = false → s.tx_q = []
  openCb : s.isOpen = true → s.closedCbCount = 0
  cbOnce : s.closedCbCount ≤ (if s.hasClosedCb then 1 else 0)
  rxEq : s.parsed = s.received
  rxLen : s.rx_buf.length = RX_BUF_SIZE

/-- On a trace with no close request and no I/O error, the transport
stays open and the bytes already on the wire followed by the unflushed
bytes of the queue are exactly the concatenation of all successfully
enqueued payloads. -/
structure BInv (s : St) : Prop where
  stillOpen : s.isOpen = true
  wireEq : s.wire ++ queueRest s = s.enqueued.flatten

theorem inv_init (cb : Bool) : Inv (init cb) := by
  constructor <;> simp [init]

theorem inv_enqueue (p : List Nat) (s : St) (h : Inv s) (hop : s.isOpen = true) :
    Inv { s with tx_q := s.tx_q ++ [⟨p, 0⟩], enqueued := s.enqueued ++ [p] } := by
  constructor
  · intro b hb
    rcases List.mem_append.mp hb with hb | hb
    · exact h.posLe b hb
    · simp at hb
      subst hb
      simp
  · intro sp b tl hfl htq
    cases hq : s.tx_q with
    | nil =>
      have hcl := h.emptyClosed (by rw [hfl]; rfl) hq
      rw [hop] at hcl
      simp at hcl
    | cons b0 tl0 =>
      have htq2 : b0 :: (tl0 ++ [(⟨p, 0⟩ : MsgBuffer)]) = b :: tl := by
        rw [← List.cons_append, ← hq]; exact htq
      injection htq2 with h1 _
      subst h1
      exact h.flightFront sp b0 tl0 hfl hq
  · exact h.flightProg
  · intro _ hq
    exact absurd hq (by simp)
  · intro hcl
    rw [hop] at hcl
    simp at hcl
  · exact h.openCb
  · exact h.cbOnce
  · exact h.rxEq
  · exact h.rxLen

theorem inv_send_bytes (p : List Nat) (s : St) (h : Inv s) :
    Inv (send_bytes p s).1 := by
  unfold send_bytes
  by_cases hop : s.isOpen = true
  · rw [if_neg (by simp [hop])]
    by_cases hov : MAX_TXQ_SIZE ≤ s.tx_q.length
    · rw [if_pos hov]
      exact h
    · rw [if_neg hov]
      exact inv_enqueue p s h hop
  · rw [Bool.not_eq_true] at hop
    rw [if_pos (by simp [hop])]
    exact h

theorem send_message_eq_send_bytes (p : List Nat) (s : St) :
    send_message p s = send_bytes p s := rfl

theorem inv_close (s : St) (h : Inv s) : Inv (close s) := by
  unfold close
  by_cases hop : s.isOpen = true
  · simp only [hop, Bool.not_true, Bool.false_eq_true, if_false]
    constructor
    · intro b hb
      exact absurd hb (List.not_mem_nil b)
    · intro sp b tl _ htq
      exact absurd htq (by simp)
    · exact h.flightProg
    · intro _ _
      rfl
    · intro _
      rfl
    · intro hcl
      exact absurd hcl (by simp)
    · have h0 := h.openCb hop
      simp [h0]
    · exact h.rxEq
    · exact h.rxLen
  · rw [Bool.not_eq_true] at hop
    simp [hop]
    exact h

theorem inv_do_write (c : Bool) (s : St) (h : Inv s) : Inv (do_write c s) := by
  unfold do_write
  split
  · exact h
  split
  · exact h
  rename_i b tl hq
  constructor
  · exact h.posLe
  · intro sp b1 tl1 hfl htq
    rw [hq] at htq
    injection hfl with hsp
    injection htq with h1 _
    subst h1
    exact hsp.symm
  · intro _
    rfl
  · intro _ hqe
    rw [hq] at hqe
    simp at hqe
  · intro hcl
    exact h.closedEmpty hcl
  · exact h.openCb
  · exact h.cbOnce
  · exact h.rxEq
  · exact h.rxLen

theorem inv_write_ok (sp : List Nat) (n : Nat) (s : St) (h : Inv s)
    (hfl : s.inflight = some sp) (hn : n ≤ sp.length) :
    Inv (write_completion_ok sp n s) := by
  unfold write_completion_ok
  cases hq : s.tx_q with
  | nil =>
    dsimp only
    constructor
    · intro b hb
      exact absurd hb (List.not_mem_nil b)
    · intro sp' b tl _ htq
      exact absurd htq (by simp)
    · intro h'
      simp at h'
    · intro h' _
      simp at h'
    · intro _
      rfl
    · exact h.openCb
    · exact h.cbOnce
    · exact h.rxEq
    · exact h.rxLen
  | cons b tl =>
    dsimp only
    have hsp : sp = b.rest := h.flightFront sp b tl hfl hq
    have hb0 : b.pos ≤ b.data.length := h.posLe b (by rw [hq]; exact List.mem_cons_self b tl)
    have hlen : sp.length = b.data.length - b.pos := by
      rw [hsp]
      exact List.length_drop _ _
    have hpn : b.pos + n ≤ b.data.length := by omega
    by_cases hnb : MsgBuffer.nbytes ⟨b.data, b.pos + n⟩ = 0
    · simp only [if_pos hnb]
      cases tl with
      | nil =>
        constructor
        · intro b' hb'
          exact absurd hb' (List.not_mem_nil b')
        · intro sp' b1 tl1 _ htq
          exact absurd htq (by simp)
        · intro h'
          simp at h'
        · intro h' _
          simp at h'
        · intro _
          rfl
        · exact h.openCb
        · exact h.cbOnce
        · exact h.rxEq
        · exact h.rxLen
      | cons c tl2 =>
        apply inv_do_write
        constructor
        · intro b' hb'
          exact h.posLe b' (by rw [hq]; exact List.mem_cons_of_mem b hb')
        · intro sp' b1 tl1 hfl' _
          exact absurd hfl' (by simp)
        · intro h'
          simp at h'
        · intro h' _
          simp at h'
        · intro hcl
          exfalso
          have hemp := h.closedEmpty hcl
          rw [hemp] at hq
          simp at hq
        · exact h.openCb
        · exact h.cbOnce
        · exact h.rxEq
        · exact h.rxLen
    · simp only [if_neg hnb]
      apply inv_do_write
      constructor
      · intro b' hb'
        rcases List.mem_cons.mp hb' with hb' | hb'
        · subst hb'
          exact hpn
        · exact h.posLe b' (by rw [hq]; exact List.mem_cons_of_mem b hb')
      · intro sp' b1 tl1 hfl' _
        exact absurd hfl' (by simp)
      · intro h'
        simp at h'
      · intro h' _
        simp at h'
      · intro hcl
        exfalso
        have hemp := h.closedEmpty hcl
        rw [hemp] at hq
        simp at hq
      · exact h.openCb
      · exact h.cbOnce
      · exact h.rxEq
      · exact h.rxLen

theorem inv_write_err (s : St) (h : Inv s) : Inv (write_completion_err s) := by
  unfold write_completion_err
  apply inv_close
  constructor
  · exact h.posLe
  · intro sp b tl hfl _
    exact absurd hfl (by simp)
  · intro h'
    simp at h'
  · intro h' _
    simp at h'
  · exact h.closedEmpty
  · exact h.openCb
  · exact h.cbOnce
  · exact h.rxEq
  · exact h.rxLen

theorem inv_read_ok (bytes : List Nat) (s : St) (h : Inv s)
    (hlen : bytes.length ≤ RX_BUF_SIZE) :
    Inv (read_completion_ok bytes s) := by
  unfold read_completion_ok
  constructor
  · exact h.posLe
  · exact h.flightFront
  · exact h.flightProg
  · exact h.emptyClosed
  · exact h.closedEmpty
  · exact h.openCb
  · exact h.cbOnce
  · show s.parsed ++ (bytes ++ s.rx_buf.drop bytes.length).take bytes.length
        = s.received ++ bytes
    rw [h.rxEq]
    congr 1
    exact List.take_left bytes _
  · show (bytes ++ s.rx_buf.drop bytes.length).length = RX_BUF_SIZE
    rw [List.length_append, List.length_drop, h.rxLen]
    omega

theorem inv_read_err (s : St) (h : Inv s) : Inv (read_completion_err s) := by
  unfold read_completion_err
  apply inv_close
  constructor
  · exact h.posLe
  · exact h.flightFront
  · exact h.flightProg
  · exact h.emptyClosed
  · exact h.closedEmpty
  · exact h.openCb
  · exact h.cbOnce
  · exact h.rxEq
  · exact h.rxLen

theorem inv_step (s : St) (e : Ev) (h : Inv s) (he : enabled s e = true) :
    Inv (step s e) := by
  cases e with
  | sendBytes p => exact inv_send_bytes p s h
  | sendMsg p =>
    show Inv (send_message p s).1
    rw [send_message_eq_send_bytes]
    exact inv_send_bytes p s h
  | closeCall => exact inv_close s h
  | doWriteNew => exact inv_do_write true s h
  | writeOk n =>
    show Inv (match s.inflight with
              | some sp => write_completion_ok sp n s
              | none => s)
    cases hfl : s.inflight with
    | none => exact h
    | some sp =>
      have hn : n ≤ sp.length := by
        unfold enabled at he
        rw [hfl] at he
        exact of_decide_eq_true he
      exact inv_write_ok sp n s h hfl hn
  | writeErr => exact inv_write_err s h
  | readOk bytes =>
    have hlen : bytes.length ≤ RX_BUF_SIZE := by
      unfold enabled at he
      simp only [Bool.and_eq_true, decide_eq_true_eq] at he
      exact he.2
    exact inv_read_ok bytes s h hlen
  | readErr => exact inv_read_err s h

theorem inv_run (s : St) (t : List Ev) (h : Inv s) (hleg : legalFrom s t = true) :
    Inv (runTrace s t) := by
  induction t generalizing s with
  | nil => exact h
  | cons e t ih =>
    rw [legalFrom, Bool.and_eq_true] at hleg
    rw [runTrace]
    exact ih (step s e) (inv_step s e h hleg.1) hleg.2

/-! ### Frame lemmas: fields `do_write` never modifies -/

theorem do_write_wire (c : Bool) (s : St) : (do_write c s).wire = s.wire := by
  unfold do_write
  split
  · rfl
  · split
    · rfl
    · rfl

theorem do_write_tx_q (c : Bool) (s : St) : (do_write c s).tx_q = s.tx_q := by
  unfold do_write
  split
  · rfl
  · split
    · rfl
    · rfl

theorem do_write_enqueued (c : Bool) (s : St) : (do_write c s).enqueued = s.enqueued := by
  unfold do_write
  split
  · rfl
  · split
    · rfl
    · rfl

theorem do_write_isOpen (c : Bool) (s : St) : (do_write c s).isOpen = s.isOpen := by
  unfold do_write
  split
  · rfl
  · split
    · rfl
    · rfl

theorem do_write_txBytes (c : Bool) (s : St) : (do_write c s).txBytes = s.txBytes := by
  unfold do_write
  split
  · rfl
  · split
    · rfl
    · rfl

theorem do_write_closedCbCount (c : Bool) (s : St) :
    (do_write c s).closedCbCount = s.closedCbCount := by
  unfold do_write
  split
  · rfl
  · split
    · rfl
    · rfl

theorem do_write_readPending (c : Bool) (s : St) :
    (do_write c s).readPending = s.readPending := by
  unfold do_write
  split
  · rfl
  · split
    · rfl
    · rfl

/-! ### The wire/queue accounting invariant on close-free, error-free
traces -/

theorem binv_init (cb : Bool) : BInv (init cb) := by
  constructor <;> simp [init, queueRest]

theorem binv_enqueue (p : List Nat) (s : St) (hB : BInv s) :
    BInv { s with tx_q := s.tx_q ++ [⟨p, 0⟩], enqueued := s.enqueued ++ [p] } := by
  constructor
  · exact hB.stillOpen
  · unfold queueRest
    simp only [List.map_append, List.map_cons, List.map_nil,
      List.flatten_append, List.flatten_cons, List.flatten_nil,
      List.append_nil, MsgBuffer.rest, List.drop_zero]
    rw [← List.append_assoc]
    have := hB.wireEq
    unfold queueRest at this
    rw [this]
theorem binv_write_ok (sp : List Nat) (n : Nat) (s : St) (hI : Inv s) (hB : BInv s)
    (hfl : s.inflight = some sp) (hn : n ≤ sp.length) :
    BInv (write_completion_ok sp n s) := by
  unfold write_completion_ok
  cases hq : s.tx_q with
  | nil =>
    exfalso
    have hcl := hI.emptyClosed (by rw [hfl]; rfl) hq
    rw [hB.stillOpen] at hcl
    simp at hcl
  | cons b tl =>
    dsimp only
    have hsp : sp = b.rest := hI.flightFront sp b tl hfl hq
    have hb0 : b.pos ≤ b.data.length := hI.posLe b (by rw [hq]; exact List.mem_cons_self b tl)
    have hlen : sp.length = b.data.length - b.pos := by
      rw [hsp]
      exact List.length_drop _ _
    have hweq : s.wire ++ (b.rest ++ (tl.map MsgBuffer.rest).flatten) = s.enqueued.flatten := by
      have hw := hB.wireEq
      unfold queueRest at hw
      rw [hq] at hw
      simpa [List.append_assoc] using hw
    have hrest1 : MsgBuffer.rest ⟨b.data, b.pos + n⟩ = b.rest.drop n := by
      unfold MsgBuffer.rest
      exact (List.drop_drop n b.pos b.data).symm
    by_cases hnb : MsgBuffer.nbytes ⟨b.data, b.pos + n⟩ = 0
    · simp only [if_pos hnb]
      have hn2 : n = b.rest.length := by
        unfold MsgBuffer.nbytes MsgBuffer.len at hnb
        have hr : b.rest.length = b.data.length - b.pos := List.length_drop _ _
        simp only at hnb
        omega
      have htake : b.rest.take n = b.rest := by
        rw [hn2]
        exact List.take_length b.rest
      cases tl with
      | nil =>
        constructor
        · exact hB.stillOpen
        · unfold queueRest
          simp only [List.map_nil, List.flatten_nil, List.append_nil]
          rw [hsp, htake]
          simpa [List.append_assoc] using hweq
      | cons c tl2 =>
        constructor
        · rw [do_write_isOpen]
          exact hB.stillOpen
        · unfold queueRest
          rw [do_write_wire, do_write_tx_q, do_write_enqueued]
          rw [hsp, htake]
          simpa [List.append_assoc] using hweq
    · simp only [if_neg hnb]
      constructor
      · rw [do_write_isOpen]
        exact hB.stillOpen
      · unfold queueRest
        rw [do_write_wire, do_write_tx_q, do_write_enqueued]
        simp only [List.map_cons, List.flatten_cons]
        rw [hrest1, hsp]
        have hsplit : b.rest.take n ++ (b.rest.drop n ++ (tl.map MsgBuffer.rest).flatten)
            = b.rest ++ (tl.map MsgBuffer.rest).flatten := by
          rw [← List.append_assoc, List.take_append_drop]
        rw [List.append_assoc, hsplit]
        exact hweq
theorem binv_step (s : St) (e : Ev) (hI : Inv s) (hB : BInv s)
    (he : enabled s e = true) (hben : e.benign = true) : BInv (step s e) := by
  cases e with
  | sendBytes p =>
    show BInv (send_bytes p s).1
    unfold send_bytes
    rw [if_neg (by simp [hB.stillOpen])]
    by_cases hov : MAX_TXQ_SIZE ≤ s.tx_q.length
    · rw [if_pos hov]
      exact hB
    · rw [if_neg hov]
      exact binv_enqueue p s hB
  | sendMsg p =>
    show BInv (send_message p s).1
    rw [send_message_eq_send_bytes]
    unfold send_bytes
    rw [if_neg (by simp [hB.stillOpen])]
    by_cases hov : MAX_TXQ_SIZE ≤ s.tx_q.length
    · rw [if_pos hov]
      exact hB
    · rw [if_neg hov]
      exact binv_enqueue p s hB
  | closeCall => simp [Ev.benign] at hben
  | doWriteNew =>
    show BInv (do_write true s)
    constructor
    · rw [do_write_isOpen]
      exact hB.stillOpen
    · unfold queueRest
      rw [do_write_wire, do_write_tx_q, do_write_enqueued]
      have hw := hB.wireEq
      unfold queueRest at hw
      exact hw
  | writeOk n =>
    show BInv (match s.inflight with
               | some sp => write_completion_ok sp n s
               | none => s)
    cases hfl : s.inflight with
    | none => exact hB
    | some sp =>
      have hn : n ≤ sp.length := by
        unfold enabled at he
        rw [hfl] at he
        exact of_decide_eq_true he
      exact binv_write_ok sp n s hI hB hfl hn
  | writeErr => simp [Ev.benign] at hben
  | readOk bytes =>
    constructor
    · exact hB.stillOpen
    · exact hB.wireEq
  | readErr => simp [Ev.benign] at hben

theorem binv_run (s : St) (t : List Ev) (hI : Inv s) (hB : BInv s)
    (hleg : legalFrom s t = true) (hben : ∀ e ∈ t, e.benign = true) :
    BInv (runTrace s t) := by
  induction t generalizing s with
  | nil => exact hB
  | cons e t ih =>
    rw [legalFrom, Bool.and_eq_true] at hleg
    rw [runTrace]
    exact ih (step s e)
      (inv_step s e hI hleg.1)
      (binv_step s e hI hB hleg.1 (hben e (List.mem_cons_self e t)))
      hleg.2
      (fun e2 he2 => hben e2 (List.mem_cons_of_mem e he2))
/-! ### Helper lemmas on the statistics counter and the pop condition -/

theorem send_bytes_txBytes (p : List Nat) (s : St) :
    (send_bytes p s).1.txBytes = s.txBytes := by
  unfold send_bytes
  split
  · rfl
  split
  · rfl
  · rfl

theorem close_txBytes (s : St) : (close s).txBytes = s.txBytes := by
  unfold close
  split
  · rfl
  · rfl

theorem write_ok_txBytes (sp : List Nat) (n : Nat) (s : St) :
    (write_completion_ok sp n s).txBytes = s.txBytes + n := by
  unfold write_completion_ok
  cases hq : s.tx_q with
  | nil => rfl
  | cons b tl =>
    dsimp only
    by_cases hnb : MsgBuffer.nbytes ⟨b.data, b.pos + n⟩ = 0
    · rw [if_pos hnb]
      cases tl with
      | nil => rfl
      | cons c tl2 => rw [do_write_txBytes]
    · rw [if_neg hnb]
      rw [do_write_txBytes]

theorem step_txBytes (s : St) (e : Ev) (he : enabled s e = true) :
    (step s e).txBytes
      = s.txBytes + (match e with | .writeOk n => n | _ => 0) := by
  cases e with
  | sendBytes p => exact send_bytes_txBytes p s
  | sendMsg p =>
    show (send_message p s).1.txBytes = _
    rw [send_message_eq_send_bytes]
    exact send_bytes_txBytes p s
  | closeCall => exact close_txBytes s
  | doWriteNew => exact do_write_txBytes true s
  | writeOk n =>
    show (match s.inflight with
          | some sp => write_completion_ok sp n s
          | none => s).txBytes = _
    cases hfl : s.inflight with
    | none =>
      unfold enabled at he
      rw [hfl] at he
      simp at he
    | some sp => exact write_ok_txBytes sp n s
  | writeErr =>
    show (write_completion_err s).txBytes = _
    unfold write_completion_err
    rw [close_txBytes]
    simp
  | readOk bytes => rfl
  | readErr =>
    show (read_completion_err s).txBytes = _
    unfold read_completion_err
    rw [close_txBytes]
    simp

theorem txBytes_run (s : St) (t : List Ev) (hleg : legalFrom s t = true) :
    (runTrace s t).txBytes = s.txBytes + sumTransfers t := by
  induction t generalizing s with
  | nil => simp [runTrace, sumTransfers]
  | cons e t ih =>
    rw [legalFrom, Bool.and_eq_true] at hleg
    rw [runTrace, ih (step s e) hleg.2, step_txBytes s e hleg.1]
    cases e <;> simp [sumTransfers, Nat.add_assoc]

theorem write_ok_pop (s : St) (hI : Inv s) (n : Nat) (sp : List Nat)
    (b : MsgBuffer) (tl : List MsgBuffer)
    (hq : s.tx_q = b :: tl) (hfl : s.inflight = some sp) (hn : n ≤ sp.length) :
    (write_completion_ok sp n s).tx_q
      = if b.pos + n = b.data.length then tl else ⟨b.data, b.pos + n⟩ :: tl := by
  have hsp : sp = b.rest := hI.flightFront sp b tl hfl hq
  have hb0 : b.pos ≤ b.data.length := hI.posLe b (by rw [hq]; exact List.mem_cons_self b tl)
  have hlen : sp.length = b.data.length - b.pos := by
    rw [hsp]
    exact List.length_drop _ _
  unfold write_completion_ok
  rw [hq]
  dsimp only
  by_cases hnb : MsgBuffer.nbytes ⟨b.data, b.pos + n⟩ = 0
  · have heq : b.pos + n = b.data.length := by
      unfold MsgBuffer.nbytes MsgBuffer.len at hnb
      simp only at hnb
      omega
    rw [if_pos hnb, if_pos heq]
    cases tl with
    | nil => rfl
    | cons c tl2 => rw [do_write_tx_q]
  · have hne : ¬(b.pos + n = b.data.length) := by
      unfold MsgBuffer.nbytes MsgBuffer.len at hnb
      simp only at hnb
      omega
    rw [if_neg hnb, if_neg hne]
    rw [do_write_tx_q]
/-! ### Claim theorems -/

/-- C1: for every legal trace of successful enqueues (in the total order
established by the queue lock) with no close and no I/O error, once the
transmit queue has drained, the bytes written to the device are exactly
the concatenation of the enqueued payloads in enqueue order — no buffer's
bytes interleaved with another's. -/
theorem fifo_no_interleaving (cb : Bool) (t : List Ev)
    (hleg : legalFrom (init cb) t = true)
    (hben : ∀ e ∈ t, e.benign = true)
    (hq : (runTrace (init cb) t).tx_q = []) :
    (runTrace (init cb) t).wire = (runTrace (init cb) t).enqueued.flatten := by
  have hB := binv_run (init cb) t (inv_init cb) (binv_init cb) hleg hben
  have hw := hB.wireEq
  unfold queueRest at hw
  rw [hq] at hw
  simpa using hw

theorem fifo_no_interleaving_witness :
    legalFrom (init true) fifoTrace = true
    ∧ fifoTrace.all Ev.benign = true
    ∧ (runTrace (init true) fifoTrace).tx_q = []
    ∧ (runTrace (init true) fifoTrace).wire = [1, 2, 3, 4, 5]
    ∧ (runTrace (init true) fifoTrace).wire
        = (runTrace (init true) fifoTrace).enqueued.flatten :=
  ⟨by decide, by decide, by decide, by decide,
   fifo_no_interleaving true fifoTrace (by decide) (by decide) (by decide)⟩

/-- C2: on every legal trace, every queued buffer satisfies
offset ≤ length; the cumulative tx statistic equals the sum of all
transferred counts; and a successful write completion of `n` bytes pops
the front buffer exactly when the cumulative offset reaches its total
length, otherwise it only advances the offset. -/
theorem partial_write_drain (cb : Bool) (t : List Ev)
    (hleg : legalFrom (init cb) t = true) :
    (∀ b ∈ (runTrace (init cb) t).tx_q, b.pos ≤ b.data.length)
    ∧ (runTrace (init cb) t).txBytes = sumTransfers t
    ∧ ∀ n sp b tl,
        (runTrace (init cb) t).tx_q = b :: tl →
        (runTrace (init cb) t).inflight = some sp →
        n ≤ sp.length →
        ((step (runTrace (init cb) t) (.writeOk n)).tx_q
            = if b.pos + n = b.data.length then tl
              else ⟨b.data, b.pos + n⟩ :: tl)
        ∧ (step (runTrace (init cb) t) (.writeOk n)).txBytes
            = (runTrace (init cb) t).txBytes + n := by
  have hI := inv_run (init cb) t (inv_init cb) hleg
  refine ⟨hI.posLe, ?_, ?_⟩
  · have hx := txBytes_run (init cb) t hleg
    simpa [init] using hx
  · intro n sp b tl hq hfl hn
    constructor
    · show (match (runTrace (init cb) t).inflight with
            | some sp => write_completion_ok sp n (runTrace (init cb) t)
            | none => runTrace (init cb) t).tx_q = _
      rw [hfl]
      exact write_ok_pop (runTrace (init cb) t) hI n sp b tl hq hfl hn
    · show (match (runTrace (init cb) t).inflight with
            | some sp => write_completion_ok sp n (runTrace (init cb) t)
            | none => runTrace (init cb) t).txBytes = _
      rw [hfl]
      exact write_ok_txBytes sp n (runTrace (init cb) t)

theorem partial_write_drain_witness :
    legalFrom (init true) drainTrace = true
    ∧ (runTrace (init true) drainTrace).tx_q = [⟨[7, 8, 9], 2⟩]
    ∧ (runTrace (init true) drainTrace).inflight = some [9]
    ∧ (runTrace (init true) drainTrace).txBytes = sumTransfers drainTrace
    ∧ (step (runTrace (init true) drainTrace) (.writeOk 1)).tx_q = []
    ∧ (step (runTrace (init true) drainTrace) (.writeOk 1)).txBytes
        = (runTrace (init true) drainTrace).txBytes + 1 := by
  refine ⟨by decide, by decide, by decide,
          (partial_write_drain true drainTrace (by decide)).2.1, ?_, ?_⟩
  · have hpop := ((partial_write_drain true drainTrace (by decide)).2.2
      1 [9] ⟨[7, 8, 9], 2⟩ [] (by decide) (by decide) (by decide)).1
    rw [hpop]
    decide
  · exact ((partial_write_drain true drainTrace (by decide)).2.2
      1 [9] ⟨[7, 8, 9], 2⟩ [] (by decide) (by decide) (by decide)).2
theorem close_inflight (s : St) : (close s).inflight = s.inflight := by
  unfold close
  split
  · rfl
  · rfl

theorem close_of_closed (s : St) (h : s.isOpen = false) : close s = s := by
  unfold close
  rw [if_pos (by simp [h])]

theorem close_isOpen_false (s : St) (h : s.isOpen = true) : (close s).isOpen = false := by
  unfold close
  rw [if_neg (by simp [h])]

theorem close_hasClosedCb (s : St) : (close s).hasClosedCb = s.hasClosedCb := by
  unfold close
  split
  · rfl
  · rfl

theorem send_bytes_hasClosedCb (p : List Nat) (s : St) :
    (send_bytes p s).1.hasClosedCb = s.hasClosedCb := by
  unfold send_bytes
  split
  · rfl
  split
  · rfl
  · rfl

theorem do_write_hasClosedCb (c : Bool) (s : St) :
    (do_write c s).hasClosedCb = s.hasClosedCb := by
  unfold do_write
  split
  · rfl
  · split
    · rfl
    · rfl

theorem write_ok_hasClosedCb (sp : List Nat) (n : Nat) (s : St) :
    (write_completion_ok sp n s).hasClosedCb = s.hasClosedCb := by
  unfold write_completion_ok
  cases hq : s.tx_q with
  | nil => rfl
  | cons b tl =>
    dsimp only
    by_cases hnb : MsgBuffer.nbytes ⟨b.data, b.pos + n⟩ = 0
    · rw [if_pos hnb]
      cases tl with
      | nil => rfl
      | cons c tl2 => rw [do_write_hasClosedCb]
    · rw [if_neg hnb]
      rw [do_write_hasClosedCb]

theorem step_hasClosedCb (s : St) (e : Ev) :
    (step s e).hasClosedCb = s.hasClosedCb := by
  cases e with
  | sendBytes p => exact send_bytes_hasClosedCb p s
  | sendMsg p =>
    show (send_message p s).1.hasClosedCb = _
    rw [send_message_eq_send_bytes]
    exact send_bytes_hasClosedCb p s
  | closeCall => exact close_hasClosedCb s
  | doWriteNew => exact do_write_hasClosedCb true s
  | writeOk n =>
    show (match s.inflight with
          | some sp => write_completion_ok sp n s
          | none => s).hasClosedCb = _
    cases s.inflight with
    | none => rfl
    | some sp => exact write_ok_hasClosedCb sp n s
  | writeErr =>
    show (write_completion_err s).hasClosedCb = _
    unfold write_completion_err
    rw [close_hasClosedCb]
  | readOk bytes => rfl
  | readErr =>
    show (read_completion_err s).hasClosedCb = _
    unfold read_completion_err
    rw [close_hasClosedCb]

theorem hasClosedCb_run (s : St) (t : List Ev) :
    (runTrace s t).hasClosedCb = s.hasClosedCb := by
  induction t generalizing s with
  | nil => rfl
  | cons e t ih =>
    rw [runTrace, ih (step s e), step_hasClosedCb]

/-- C3: a send on an open transport whose queue already holds
MAX_TXQ_SIZE buffers throws the queue-overflow error and leaves the
whole state — in particular the queue's length and contents —
unchanged; this covers the (K+1)-th enqueue while K buffers are
unflushed. -/
theorem queue_overflow (s : St) (p q : List Nat)
    (hop : s.isOpen = true) (hfull : MAX_TXQ_SIZE ≤ s.tx_q.length) :
    send_bytes p s = (s, some .queueOverflow)
    ∧ send_message q s = (s, some .queueOverflow) := by
  constructor
  · unfold send_bytes
    rw [if_neg (by simp [hop]), if_pos hfull]
  · unfold send_message
    rw [if_neg (by simp [hop]), if_pos hfull]

theorem queue_overflow_witness :
    fullSt.isOpen = true
    ∧ MAX_TXQ_SIZE ≤ fullSt.tx_q.length
    ∧ fullSt.tx_q.length = MAX_TXQ_SIZE
    ∧ send_bytes [1] fullSt = (fullSt, some .queueOverflow)
    ∧ send_message [2] fullSt = (fullSt, some .queueOverflow) :=
  ⟨rfl, by simp [fullSt, init], by simp [fullSt, init],
   (queue_overflow fullSt [1] [2] rfl (by simp [fullSt, init])).1,
   (queue_overflow fullSt [1] [2] rfl (by simp [fullSt, init])).2⟩
/-- C4: a read or write completion that reports an error on an open
transport shuts it down: `is_open()` becomes false, the queue is
cleared, the on-closed callback (when registered) fires exactly once,
and from the resulting closed, empty state no enabled event ever issues
a new device write, re-arms the read chain, or fires the callback
again.  The completion handlers return only a state — there is no error
channel to any send caller. -/
theorem io_error_fatal_shutdown :
    (∀ s : St, s.isOpen = true →
        write_completion_err s
          = { s with isOpen := false, tx_q := [], inflight := none,
                     closedCbCount :=
                       s.closedCbCount + (if s.hasClosedCb then 1 else 0) })
    ∧ (∀ s : St, s.isOpen = true →
        read_completion_err s
          = { s with isOpen := false, tx_q := [], readPending := false,
                     closedCbCount :=
                       s.closedCbCount + (if s.hasClosedCb then 1 else 0) })
    ∧ (∀ (s : St) (e : Ev), s.isOpen = false → s.tx_q = [] →
        enabled s e = true →
        ((step s e).inflight.isSome = true → s.inflight.isSome = true)
        ∧ ((step s e).readPending = true → s.readPending = true)
        ∧ (step s e).closedCbCount = s.closedCbCount) := by
  refine ⟨?_, ?_, ?_⟩
  · intro s hop
    unfold write_completion_err close
    rw [if_neg (by simp [hop])]
  · intro s hop
    unfold read_completion_err close
    rw [if_neg (by simp [hop])]
  · intro s e hcl hq he
    cases e with
    | sendBytes p =>
      simp only [step]
      unfold send_bytes
      rw [if_pos (by simp [hcl])]
      exact ⟨fun h => h, fun h => h, rfl⟩
    | sendMsg p =>
      simp only [step]
      rw [send_message_eq_send_bytes]
      unfold send_bytes
      rw [if_pos (by simp [hcl])]
      exact ⟨fun h => h, fun h => h, rfl⟩
    | closeCall =>
      simp only [step]
      rw [close_of_closed s hcl]
      exact ⟨fun h => h, fun h => h, rfl⟩
    | doWriteNew =>
      simp only [step]
      unfold do_write
      split
      · exact ⟨fun h => h, fun h => h, rfl⟩
      · rw [hq]
        exact ⟨fun h => h, fun h => h, rfl⟩
    | writeOk n =>
      simp only [step]
      cases hfl : s.inflight with
      | none =>
        refine ⟨fun h => ?_, fun h => h, rfl⟩
        rw [← hfl]
        exact h
      | some sp =>
        unfold write_completion_ok
        rw [hq]
        refine ⟨fun _ => ?_, fun h => h, rfl⟩
        rfl
    | writeErr =>
      simp only [step]
      unfold write_completion_err
      rw [close_of_closed _ (show ({ s with inflight := none } : St).isOpen = false from hcl)]
      refine ⟨?_, fun h => h, rfl⟩
      intro h'
      simp at h'
    | readOk bytes =>
      unfold enabled at he
      rw [hcl] at he
      simp at he
    | readErr =>
      simp only [step]
      unfold read_completion_err
      rw [close_of_closed _ (show ({ s with readPending := false } : St).isOpen = false from hcl)]
      refine ⟨fun h => h, ?_, rfl⟩
      intro h'
      simp at h'

theorem io_error_fatal_shutdown_witness :
    (init true).isOpen = true
    ∧ write_completion_err (init true)
        = { init true with isOpen := false, tx_q := [], inflight := none,
                           closedCbCount := 1 }
    ∧ read_completion_err (init true)
        = { init true with isOpen := false, tx_q := [], readPending := false,
                           closedCbCount := 1 }
    ∧ (closedSt.isOpen = false ∧ closedSt.tx_q = []
        ∧ enabled closedSt (.sendBytes [1]) = true
        ∧ (step closedSt (.sendBytes [1])).closedCbCount
            = closedSt.closedCbCount) := by
  refine ⟨rfl, ?_, ?_, by decide, by decide, by decide, ?_⟩
  · have h := io_error_fatal_shutdown.1 (init true) rfl
    rw [h]
    simp [init]
  · have h := io_error_fatal_shutdown.2.1 (init true) rfl
    rw [h]
    simp [init]
  · exact (io_error_fatal_shutdown.2.2 closedSt (.sendBytes [1])
      (by decide) (by decide) (by decide)).2.2

/-- C5: close is idempotent — closing an already-closed transport
returns the state unchanged; a second close is a no-op; closing an open
transport flips it closed and fires the registered on-closed callback
exactly once; and over any legal trace (any number of close calls and
error shutdowns, including the destructor's close) the callback fires
at most once, and only when one was registered. -/
theorem close_idempotent :
    (∀ s : St, s.isOpen = false → close s = s)
    ∧ (∀ s : St, close (close s) = close s)
    ∧ (∀ s : St, s.isOpen = true →
        (close s).closedCbCount
            = s.closedCbCount + (if s.hasClosedCb then 1 else 0)
        ∧ (close s).isOpen = false)
    ∧ (∀ (cb : Bool) (t : List Ev), legalFrom (init cb) t = true →
        (runTrace (init cb) t).closedCbCount ≤ (if cb then 1 else 0)) := by
  refine ⟨close_of_closed, ?_, ?_, ?_⟩
  · intro s
    by_cases hop : s.isOpen = true
    · exact close_of_closed (close s) (close_isOpen_false s hop)
    · rw [Bool.not_eq_true] at hop
      rw [close_of_closed s hop]
      exact close_of_closed s hop
  · intro s hop
    constructor
    · unfold close
      rw [if_neg (by simp [hop])]
    · exact close_isOpen_false s hop
  · intro cb t hleg
    have hI := inv_run (init cb) t (inv_init cb) hleg
    have hcb : (runTrace (init cb) t).hasClosedCb = cb := hasClosedCb_run (init cb) t
    have h1 := hI.cbOnce
    rw [hcb] at h1
    exact h1

theorem close_idempotent_witness :
    closedSt.isOpen = false
    ∧ close closedSt = closedSt
    ∧ close (close (init true)) = close (init true)
    ∧ (init true).isOpen = true
    ∧ (close (init true)).closedCbCount = 1
    ∧ legalFrom (init true) [Ev.closeCall, Ev.closeCall] = true
    ∧ (runTrace (init true) [Ev.closeCall, Ev.closeCall]).closedCbCount ≤ 1 := by
  refine ⟨by decide, close_idempotent.1 closedSt (by decide),
          close_idempotent.2.1 (init true), rfl, ?_, by decide, ?_⟩
  · have h := (close_idempotent.2.2.1 (init true) rfl).1
    simpa [init] using h
  · have h := close_idempotent.2.2.2 true [Ev.closeCall, Ev.closeCall] (by decide)
    simpa using h

/-- C6: a send on a transport that is not open returns without error and
without any state change — the payload is silently dropped. -/
theorem send_on_closed_drops (s : St) (p q : List Nat) (h : s.isOpen = false) :
    send_bytes p s = (s, none) ∧ send_message q s = (s, none) := by
  constructor
  · unfold send_bytes
    rw [if_pos (by simp [h])]
  · unfold send_message
    rw [if_pos (by simp [h])]

theorem send_on_closed_drops_witness :
    closedSt.isOpen = false
    ∧ send_bytes [1, 2] closedSt = (closedSt, none)
    ∧ send_message [3] closedSt = (closedSt, none) :=
  ⟨by decide, (send_on_closed_drops closedSt [1, 2] [3] (by decide)).1,
   (send_on_closed_drops closedSt [1, 2] [3] (by decide)).2⟩

/-- C7: close never raises an error to its caller: for every state, the
caller-visible error component of the close sequence is `none`, and the
state outcome is exactly the shutdown state. -/
theorem close_never_raises :
    ∀ s : St, (close_result s).2 = none ∧ (close_result s).1 = close s :=
  fun _ => ⟨rfl, rfl⟩
theorem send_bytes_inflight (p : List Nat) (s : St) :
    (send_bytes p s).1.inflight = s.inflight := by
  unfold send_bytes
  split
  · rfl
  split
  · rfl
  · rfl

/-- C8: at most one write is in flight: a "new enqueue" write trigger is
a no-op whenever the in-progress flag is set; any step that leaves a
write outstanding either left the existing one untouched, issued it from
the idle state via the posted trigger, or issued it as the continuation
of the completed in-flight write; and on every legal trace an
outstanding write implies the in-progress flag. -/
theorem single_write_in_flight :
    (∀ s : St, s.tx_in_progress = true → do_write true s = s)
    ∧ (∀ (s : St) (e : Ev), (step s e).inflight.isSome = true →
        ((step s e).inflight = s.inflight ∧ s.inflight.isSome = true)
        ∨ (e = .doWriteNew ∧ s.tx_in_progress = false)
        ∨ (∃ n, e = .writeOk n ∧ s.inflight.isSome = true))
    ∧ (∀ (cb : Bool) (t : List Ev), legalFrom (init cb) t = true →
        (runTrace (init cb) t).inflight.isSome = true →
        (runTrace (init cb) t).tx_in_progress = true) := by
  refine ⟨?_, ?_, ?_⟩
  · intro s hprog
    unfold do_write
    rw [if_pos (by simp [hprog])]
  · intro s e hsome
    cases e with
    | sendBytes p =>
      left
      have hfr : (step s (Ev.sendBytes p)).inflight = s.inflight :=
        send_bytes_inflight p s
      rw [hfr] at hsome
      exact ⟨hfr, hsome⟩
    | sendMsg p =>
      left
      have hfr : (step s (Ev.sendMsg p)).inflight = s.inflight := by
        show (send_message p s).1.inflight = s.inflight
        rw [send_message_eq_send_bytes]
        exact send_bytes_inflight p s
      rw [hfr] at hsome
      exact ⟨hfr, hsome⟩
    | closeCall =>
      left
      simp only [step] at hsome ⊢
      rw [close_inflight] at hsome ⊢
      exact ⟨rfl, hsome⟩
    | doWriteNew =>
      by_cases hprog : s.tx_in_progress = true
      · left
        simp only [step] at hsome ⊢
        unfold do_write at hsome ⊢
        rw [if_pos (by simp [hprog])] at hsome ⊢
        exact ⟨rfl, hsome⟩
      · right
        left
        rw [Bool.not_eq_true] at hprog
        exact ⟨rfl, hprog⟩
    | writeOk n =>
      cases hfl : s.inflight with
      | none =>
        left
        have h3 : s.inflight.isSome = true := by
          simp only [step] at hsome
          rw [hfl] at hsome
          exact hsome
        refine ⟨?_, hfl ▸ h3⟩
        simp only [step]
        rw [hfl]
        exact hfl
      | some sp =>
        right
        right
        exact ⟨n, rfl, rfl⟩
    | writeErr =>
      exfalso
      simp only [step] at hsome
      unfold write_completion_err at hsome
      rw [close_inflight] at hsome
      simp at hsome
    | readOk bytes =>
      left
      exact ⟨rfl, hsome⟩
    | readErr =>
      left
      simp only [step] at hsome ⊢
      unfold read_completion_err at hsome ⊢
      rw [close_inflight] at hsome ⊢
      exact ⟨rfl, hsome⟩
  · intro cb t hleg hsome
    exact (inv_run (init cb) t (inv_init cb) hleg).flightProg hsome

theorem single_write_in_flight_witness :
    busySt.tx_in_progress = true
    ∧ do_write true busySt = busySt
    ∧ legalFrom (init true) busyTrace = true
    ∧ (runTrace (init true) busyTrace).inflight.isSome = true
    ∧ (runTrace (init true) busyTrace).tx_in_progress = true :=
  ⟨rfl, single_write_in_flight.1 busySt rfl, by decide, by decide,
   single_write_in_flight.2.2 true busyTrace (by decide) (by decide)⟩

/-- C9: a successful read completion of `bytes` hands exactly the filled
span of the scratch buffer — the received bytes, in order — to the
parser and re-arms the read before anything else can run; over every
legal trace the full byte stream delivered to the parser equals the
byte stream received from the device, with no reordering and no drops. -/
theorem read_loop_no_drop :
    (∀ (s : St) (bytes : List Nat),
        (read_completion_ok bytes s).parsed = s.parsed ++ bytes
        ∧ (read_completion_ok bytes s).received = s.received ++ bytes
        ∧ (read_completion_ok bytes s).readPending = true)
    ∧ (∀ (cb : Bool) (t : List Ev), legalFrom (init cb) t = true →
        (runTrace (init cb) t).parsed = (runTrace (init cb) t).received) := by
  refine ⟨?_, ?_⟩
  · intro s bytes
    refine ⟨?_, rfl, rfl⟩
    show s.parsed ++ (bytes ++ s.rx_buf.drop bytes.length).take bytes.length
        = s.parsed ++ bytes
    rw [List.take_left bytes _]
  · intro cb t hleg
    exact (inv_run (init cb) t (inv_init cb) hleg).rxEq

theorem read_loop_no_drop_witness :
    (read_completion_ok [3, 4] (init true)).parsed = (init true).parsed ++ [3, 4]
    ∧ legalFrom (init true) readTrace = true
    ∧ (runTrace (init true) readTrace).received = [3, 4, 5]
    ∧ (runTrace (init true) readTrace).parsed
        = (runTrace (init true) readTrace).received :=
  ⟨(read_loop_no_drop.1 (init true) [3, 4]).1, by decide, by decide,
   read_loop_no_drop.2 true readTrace (by decide)⟩

/-- C10: a successful write completion of `n` bytes that finds the queue
empty (close cleared it while the write was in flight) still adds `n` to
the cumulative tx statistic, resets only the write-in-progress flag (and
retires the outstanding write, whose accepted bytes had already reached
the device), advances no offset, pops nothing, and changes no other
field of the transport state. -/
theorem write_completion_after_close (s : St) (sp : List Nat) (n : Nat)
    (hfl : s.inflight = some sp) (hq : s.tx_q = []) :
    step s (.writeOk n)
      = { s with txBytes := s.txBytes + n,
                 wire := s.wire ++ sp.take n,
                 inflight := none,
                 tx_in_progress := false } := by
  simp only [step]
  rw [hfl]
  unfold write_completion_ok
  rw [hq]

theorem write_completion_after_close_witness :
    legalFrom (init true) lateTrace = true
    ∧ (runTrace (init true) lateTrace).inflight = some [9, 9]
    ∧ (runTrace (init true) lateTrace).tx_q = []
    ∧ (runTrace (init true) lateTrace).isOpen = false
    ∧ step (runTrace (init true) lateTrace) (.writeOk 2)
        = { runTrace (init true) lateTrace with
              txBytes := (runTrace (init true) lateTrace).txBytes + 2,
              wire := (runTrace (init true) lateTrace).wire ++ [9, 9].take 2,
              inflight := none,
              tx_in_progress := false }
    ∧ (step (runTrace (init true) lateTrace) (.writeOk 2)).txBytes = 2 :=
  ⟨by decide, by decide, by decide, by decide,
   write_completion_after_close (runTrace (init true) lateTrace) [9, 9] 2
     (by decide) (by decide),
   by decide⟩
end mavconn
